import Mathlib

/-!
Shallow embedding of the enum-other attribute macro (src/lib.rs).

The macro rewrites an enum with discriminants into an enum with a fallback
("other") variant and generates the two From conversions.  We embed:

  * the syntactic categories the macro inspects (literals, discriminant
    expressions, types, variants),
  * Args parsing (src/lib.rs lines 99-110) over an abstract token stream,
  * parse_int_expr (lines 112-134),
  * the discriminant-resolution loop of the `other` entry point
    (lines 219-239), the enum rewriting (lines 241-247), the primary-variant
    filtering (lines 253-258) and the textual-handling decisions
    (lines 262-276),
  * a denotational semantics of the generated match code (lines 278-320):
    values of the value type, values of the rewritten enum, and the two
    conversion functions as first-match dispatch.
-/

namespace EnumOther

/-- Decidable equality for Except results. -/
instance {ε α : Type} [DecidableEq ε] [DecidableEq α] : DecidableEq (Except ε α) :=
  fun a b =>
    match a, b with
    | .error x, .error y =>
      if h : x = y then isTrue (by rw [h]) else isFalse (by intro hh; cases hh; exact h rfl)
    | .ok x, .ok y =>
      if h : x = y then isTrue (by rw [h]) else isFalse (by intro hh; cases hh; exact h rfl)
    | .error _, .ok _ => isFalse (by intro h; cases h)
    | .ok _, .error _ => isFalse (by intro h; cases h)

/-- Literals, mirroring the subset of syn's Lit that the macro inspects:
integer literals (their base-10 value; LitInt values created from a running
counter may be negative), string literals, and anything else. -/
inductive RLit where
  | int (n : Int)
  | str (s : String)
  | otherLit
deriving DecidableEq

/-- Discriminant expressions, mirroring the subset of syn's Expr the macro
distinguishes: a literal, a unary negation (Expr::Unary with UnOp::Neg),
a tuple-construction expression, or anything else. -/
inductive RExpr where
  | lit (l : RLit)
  | unaryNeg (e : RExpr)
  | tuple (elems : List RExpr)
  | otherExpr

mutual

/-- Boolean structural equality on expressions. -/
def RExpr.beq : RExpr → RExpr → Bool
  | .lit a, .lit b => a == b
  | .unaryNeg a, .unaryNeg b => RExpr.beq a b
  | .tuple a, .tuple b => RExpr.beqList a b
  | .otherExpr, .otherExpr => true
  | _, _ => false

/-- Boolean structural equality on expression lists. -/
def RExpr.beqList : List RExpr → List RExpr → Bool
  | [], [] => true
  | a :: as, b :: bs => RExpr.beq a b && RExpr.beqList as bs
  | _, _ => false

end

mutual

theorem RExpr.beq_expr_iff : ∀ (a b : RExpr), (RExpr.beq a b = true) ↔ a = b
  | .lit a, .lit b => by simp [RExpr.beq]
  | .lit _, .unaryNeg _ => by simp [RExpr.beq]
  | .lit _, .tuple _ => by simp [RExpr.beq]
  | .lit _, .otherExpr => by simp [RExpr.beq]
  | .unaryNeg _, .lit _ => by simp [RExpr.beq]
  | .unaryNeg a, .unaryNeg b => by
      rw [show RExpr.beq (.unaryNeg a) (.unaryNeg b) = RExpr.beq a b from rfl,
        RExpr.beq_expr_iff]
      simp
  | .unaryNeg _, .tuple _ => by simp [RExpr.beq]
  | .unaryNeg _, .otherExpr => by simp [RExpr.beq]
  | .tuple _, .lit _ => by simp [RExpr.beq]
  | .tuple _, .unaryNeg _ => by simp [RExpr.beq]
  | .tuple a, .tuple b => by
      rw [show RExpr.beq (.tuple a) (.tuple b) = RExpr.beqList a b from rfl,
        RExpr.beqList_expr_iff]
      simp
  | .tuple _, .otherExpr => by simp [RExpr.beq]
  | .otherExpr, .lit _ => by simp [RExpr.beq]
  | .otherExpr, .unaryNeg _ => by simp [RExpr.beq]
  | .otherExpr, .tuple _ => by simp [RExpr.beq]
  | .otherExpr, .otherExpr => by simp [RExpr.beq]

theorem RExpr.beqList_expr_iff : ∀ (as bs : List RExpr), (RExpr.beqList as bs = true) ↔ as = bs
  | [], [] => by simp [RExpr.beqList]
  | [], _ :: _ => by simp [RExpr.beqList]
  | _ :: _, [] => by simp [RExpr.beqList]
  | a :: as, b :: bs => by
      rw [show RExpr.beqList (a :: as) (b :: bs) = (RExpr.beq a b && RExpr.beqList as bs)
        from rfl]
      rw [Bool.and_eq_true, RExpr.beq_expr_iff, RExpr.beqList_expr_iff]
      simp

end

instance : DecidableEq RExpr := fun a b =>
  decidable_of_iff (RExpr.beq a b = true) (RExpr.beq_expr_iff a b)

/-- Types, mirroring the distinction the macro makes on syn's Type
(lines 242-245): a tuple type with its element types, or any non-tuple
type (represented by its path text). -/
inductive RType where
  | tuple (elems : List RType)
  | path (name : String)

mutual

/-- Boolean structural equality on types. -/
def RType.beq : RType → RType → Bool
  | .tuple a, .tuple b => RType.beqList a b
  | .path a, .path b => a == b
  | _, _ => false

/-- Boolean structural equality on type lists. -/
def RType.beqList : List RType → List RType → Bool
  | [], [] => true
  | a :: as, b :: bs => RType.beq a b && RType.beqList as bs
  | _, _ => false

end

mutual

theorem RType.beq_type_iff : ∀ (a b : RType), (RType.beq a b = true) ↔ a = b
  | .tuple a, .tuple b => by
      rw [show RType.beq (.tuple a) (.tuple b) = RType.beqList a b from rfl,
        RType.beqList_type_iff]
      simp
  | .tuple _, .path _ => by simp [RType.beq]
  | .path _, .tuple _ => by simp [RType.beq]
  | .path a, .path b => by simp [RType.beq]

theorem RType.beqList_type_iff : ∀ (as bs : List RType), (RType.beqList as bs = true) ↔ as = bs
  | [], [] => by simp [RType.beqList]
  | [], _ :: _ => by simp [RType.beqList]
  | _ :: _, [] => by simp [RType.beqList]
  | a :: as, b :: bs => by
      rw [show RType.beqList (a :: as) (b :: bs) = (RType.beq a b && RType.beqList as bs)
        from rfl]
      rw [Bool.and_eq_true, RType.beq_type_iff, RType.beqList_type_iff]
      simp

end

instance : DecidableEq RType := fun a b =>
  decidable_of_iff (RType.beq a b = true) (RType.beq_type_iff a b)

/-- One enum variant: a name, its fields, and an optional discriminant
expression (syn's Variant as far as the macro looks at it). -/
structure Variant where
  name : String
  fields : List RType
  discriminant : Option RExpr
deriving DecidableEq

/-- The input enum item: its identifier and its variants (syn's ItemEnum as
far as the macro looks at it). -/
structure ItemEnum where
  ident : String
  variants : List Variant
deriving DecidableEq

/-- The parsed attribute arguments (struct Args, lines 94-97). -/
structure Args where
  data_type : RType
  other_ident : String
deriving DecidableEq

/-- isize::MAX on a 64-bit platform. -/
def isizeMax : Int := 2 ^ 63 - 1

/-- isize::MIN on a 64-bit platform. -/
def isizeMin : Int := -(2 ^ 63)

/-- Two's-complement wrap-around into the isize range, used where the Rust
code performs isize arithmetic whose result could leave the range. -/
def wrapIsize (n : Int) : Int :=
  (n + 2 ^ 63) % 2 ^ 64 - 2 ^ 63

/-- parse_int_expr (lines 112-134): strip at most one unary negation, then
demand an integer literal; base10_parse::<isize> succeeds exactly when the
literal's value fits in isize, and the parsed value is then multiplied by
-1 when the negation was present.  The multiplication is isize
arithmetic, hence the wrap. -/
def parse_int_expr (e : RExpr) : Except String (Option Int) :=
  let stripped : Bool × RExpr :=
    match e with
    | .unaryNeg inner => (true, inner)
    | _ => (false, e)
  match stripped.2 with
  | .lit (.int n) =>
      if isizeMin ≤ n ∧ n ≤ isizeMax then
        .ok (some (wrapIsize (n * (if stripped.1 then -1 else 1))))
      else
        .error "literal out of range for isize"
  | _ => .ok none

/-- The discriminant-resolution loop (lines 219-239), as a recursion over
the variant list carrying the running counter curr_discriminant.  An
explicit discriminant is pushed verbatim (and, when it parses as an
integer, sets the counter); a missing discriminant is rendered from the
counter as an integer literal; parse errors abort the whole loop.  The
counter increment is isize arithmetic, hence the wrap. -/
def resolveFrom (c : Int) : List Variant → Except String (List RExpr)
  | [] => .ok []
  | v :: vs =>
    match v.discriminant with
    | some e =>
      match parse_int_expr e with
      | .error msg => .error msg
      | .ok r =>
        match resolveFrom (wrapIsize ((match r with | some n => n | none => c) + 1)) vs with
        | .error msg => .error msg
        | .ok ds => .ok (e :: ds)
    | none =>
      match resolveFrom (wrapIsize (c + 1)) vs with
      | .error msg => .error msg
      | .ok ds => .ok (RExpr.lit (.int c) :: ds)

/-- The fields of the appended fallback variant (lines 241-245): the tuple's
elements when the value type is a tuple type, otherwise the single value
type. -/
def otherFieldsOf (t : RType) : List RType :=
  match t with
  | .tuple es => es
  | t => [t]

/-- The output of the macro when it succeeds: the rewritten enum item and
the data the generated impl blocks are built from (resolved discriminants,
fallback fields, filtered primary variant names, and the two
textual-handling decisions of lines 262-276). -/
structure GenOutput where
  item : ItemEnum
  discriminants : List RExpr
  other_fields : List RType
  primary_variants : List String
  data_type_match_as_str : Option Bool
  convert_to_string : Bool
  other_ident : String
deriving DecidableEq

/-- Whether an expression is a string literal (the test made at lines
264-266 and 271-274 on the first resolved discriminant). -/
def RExpr.isStrLit : RExpr → Bool
  | .lit (.str _) => true
  | _ => false

/-- The `other` entry point (lines 211-323) up to the final quote!: resolve
the discriminants (aborting on a parse error, in which case the emitted
token stream holds nothing but the compile error), clear the variants'
discriminants, append the fallback variant, filter the variant names
against the fallback identifier, and decide the textual handling from the
first resolved discriminant. -/
def other (args : Args) (item : ItemEnum) : Except String GenOutput :=
  match resolveFrom 0 item.variants with
  | .error msg => .error msg
  | .ok discriminants =>
    let cleared := item.variants.map fun v => Variant.mk v.name v.fields none
    let other_fields := otherFieldsOf args.data_type
    let variants := cleared ++ [Variant.mk args.other_ident other_fields none]
    let primary_variants :=
      (variants.map (fun v => v.name)).filter (fun n => n != args.other_ident)
    let dtm := discriminants.head?.map fun d => d.isStrLit
    let conv :=
      match discriminants.head? with
      | some d => d.isStrLit
      | none => false
    .ok (GenOutput.mk (ItemEnum.mk item.ident variants) discriminants other_fields
      primary_variants dtm conv args.other_ident)

/-- Runtime values of the value type: an integer scalar, a string scalar
(String and &str are both represented by their text), or a tuple of
values. -/
inductive Value where
  | int (n : Int)
  | str (s : String)
  | tuple (vs : List Value)

mutual

/-- Boolean structural equality on values. -/
def Value.beq : Value → Value → Bool
  | .int a, .int b => a == b
  | .str a, .str b => a == b
  | .tuple a, .tuple b => Value.beqList a b
  | _, _ => false

/-- Boolean structural equality on value lists. -/
def Value.beqList : List Value → List Value → Bool
  | [], [] => true
  | a :: as, b :: bs => Value.beq a b && Value.beqList as bs
  | _, _ => false

end

mutual

theorem Value.beq_value_iff : ∀ (a b : Value), (Value.beq a b = true) ↔ a = b
  | .int a, .int b => by simp [Value.beq]
  | .int _, .str _ => by simp [Value.beq]
  | .int _, .tuple _ => by simp [Value.beq]
  | .str _, .int _ => by simp [Value.beq]
  | .str a, .str b => by simp [Value.beq]
  | .str _, .tuple _ => by simp [Value.beq]
  | .tuple _, .int _ => by simp [Value.beq]
  | .tuple _, .str _ => by simp [Value.beq]
  | .tuple a, .tuple b => by
      rw [show Value.beq (.tuple a) (.tuple b) = Value.beqList a b from rfl,
        Value.beqList_value_iff]
      simp

theorem Value.beqList_value_iff : ∀ (as bs : List Value), (Value.beqList as bs = true) ↔ as = bs
  | [], [] => by simp [Value.beqList]
  | [], _ :: _ => by simp [Value.beqList]
  | _ :: _, [] => by simp [Value.beqList]
  | a :: as, b :: bs => by
      rw [show Value.beqList (a :: as) (b :: bs) = (Value.beq a b && Value.beqList as bs)
        from rfl]
      rw [Bool.and_eq_true, Value.beq_value_iff, Value.beqList_value_iff]
      simp

end

instance : DecidableEq Value := fun a b =>
  decidable_of_iff (Value.beq a b = true) (Value.beq_value_iff a b)

/-- A runtime value of the rewritten enum: one of the original (fieldless)
members, or the fallback member carrying its field values. -/
inductive EnumValue where
  | member (name : String)
  | fallback (fields : List Value)
deriving DecidableEq

mutual

/-- The value a discriminant expression denotes when used as an expression
or as a pattern in the generated match code: literals denote their scalar,
a unary negation of an integer literal denotes the negated integer, and a
tuple expression denotes the tuple of its elements' values.  Other
expressions (which the generated code could only use if they happen to be
valid patterns and expressions of the value type) denote no value here. -/
def evalExpr : RExpr → Option Value
  | .lit (.int n) => some (.int n)
  | .lit (.str s) => some (.str s)
  | .lit .otherLit => none
  | .unaryNeg (.lit (.int n)) => some (.int (-n))
  | .unaryNeg _ => none
  | .tuple es =>
    match evalExprList es with
    | some vs => some (.tuple vs)
    | none => none
  | .otherExpr => none

/-- Pointwise evaluation of a list of expressions. -/
def evalExprList : List RExpr → Option (List Value)
  | [] => some []
  | e :: es =>
    match evalExpr e, evalExprList es with
    | some v, some vs => some (v :: vs)
    | _, _ => none

end

/-- The text ToString::to_string produces for a value.  Tuples implement
neither Display nor ToString, so generated code containing
to_string(tuple) does not compile; the value returned for that case is
immaterial. -/
def valueToString : Value → String
  | .int n => toString n
  | .str s => s
  | .tuple _ => ""

/-- The effect of the optional convert_discriminant interpolation
(lines 271-276): when the conversion is textual, every wrapped value goes
through ToString::to_string; otherwise the value is left untouched. -/
def applyConvert (textual : Bool) (v : Value) : Value :=
  if textual then .str (valueToString v) else v

/-- Whether a value is a string scalar. -/
def Value.isStr : Value → Bool
  | .str _ => true
  | _ => false

/-- The value built by the parenthesized expression "( _0 , _1 , ... )" in
the generated code (lines 291-295): with a single binding the parentheses
are mere grouping and the expression is that binding's value; otherwise it
is a tuple of the bindings. -/
def mkTuple (vs : List Value) : Value :=
  match vs with
  | [v] => v
  | vs => .tuple vs

/-- Matching the pattern "( _0 , _1 , ... )" of k bindings (lines 306-309,
287-290) against a value: with a single binding the parentheses are mere
grouping and the whole value is bound; otherwise the value must be a tuple
of exactly k components, bound pointwise. -/
def destructure (k : Nat) (v : Value) : Option (List Value) :=
  if k = 1 then some [v]
  else
    match v with
    | .tuple vs => if vs.length = k then some vs else none
    | _ => none

/-- Semantics of the generated impl From(Enum) for the value type
(lines 281-298): first-match dispatch over the arms
"Enum::Variant => convert_discriminant(discriminant)", one per
(primary variant, discriminant) pair as zipped by the quote! repetition,
followed by the fallback arm "Enum::other_ident(_0, ...) => (_0, ...)".
A member value that no arm matches (impossible in compilable generated
code) gets no result. -/
def enum_to_value (g : GenOutput) : EnumValue → Option Value
  | .member n =>
    match (g.primary_variants.zip g.discriminants).find? (fun a => a.1 == n) with
    | some a => (evalExpr a.2).map (applyConvert g.convert_to_string)
    | none => none
  | .fallback fs => some (mkTuple fs)

/-- Semantics of the generated impl From(value type) for the enum
(lines 300-319): first-match dispatch of the incoming value against the
discriminant patterns, one arm per (discriminant, primary variant) pair as
zipped by the quote! repetition, followed by the catch-all fallback arm
"(_0, ...) => Self::other_ident(convert_discriminant(_0), ...)".  The
borrowed-text view String::as_str taken of the scrutinee in the textual
case does not change the text the patterns are compared with, so it is
invisible at this level.  A value the fallback pattern cannot bind
(impossible for values of the value type in compilable generated code)
gets no result. -/
def value_to_enum (g : GenOutput) (v : Value) : Option EnumValue :=
  match (g.discriminants.zip g.primary_variants).find?
      (fun a => decide (evalExpr a.1 = some v)) with
  | some a => some (.member a.2)
  | none =>
    (destructure g.other_fields.length v).map
      fun fs => .fallback (fs.map (applyConvert g.convert_to_string))

/-- A token of the attribute-argument stream following the value type:
a comma, a bare (non-keyword) identifier, or any other token. -/
inductive ArgToken where
  | comma
  | ident (s : String)
  | otherTok
deriving DecidableEq

/-- Args::parse (lines 99-110), modelled over the token stream that
follows the already-parsed value type.  Parsing an Option of a comma token
consumes a leading comma and never fails; when a comma was present,
input.parse::<Ident>().ok() consumes a following bare identifier if there
is one (a failed identifier parse consumes nothing and is discarded by
.ok()), and the fallback identifier defaults to Other when no identifier
was obtained.  Returns the parsed Args and the unconsumed remainder of the
stream. -/
def Args.parse (dt : RType) (toks : List ArgToken) : Args × List ArgToken :=
  match toks with
  | .comma :: rest =>
    match rest with
    | .ident s :: rest2 => (Args.mk dt s, rest2)
    | _ => (Args.mk dt "Other", rest)
  | _ => (Args.mk dt "Other", toks)

/-- parse_macro_input!(args as Args) (line 217): syn's parse entry point
runs Args::parse and then demands that the token stream be fully consumed,
reporting an unexpected-token error otherwise. -/
def parseArgsInput (dt : RType) (toks : List ArgToken) : Except String Args :=
  let r := Args.parse dt toks
  if r.2.isEmpty then .ok r.1 else .error "unexpected token"


/-! ### Concrete inputs from the crate's examples directory -/

/-- examples/simple.rs (a prefix of the Signal enum). -/
def sigItem : ItemEnum := ItemEnum.mk "Signal" [
  Variant.mk "Hangup" [] (some (.lit (.int 1))),
  Variant.mk "Interrupt" [] (some (.lit (.int 2))),
  Variant.mk "Quit" [] (some (.lit (.int 3))),
  Variant.mk "Kill" [] (some (.lit (.int 9)))]

def sigArgs : Args := Args.mk (.path "u8") "Other"

/-- The macro's output on sigItem (checked against `other` below). -/
def sigGen : GenOutput := GenOutput.mk
  (ItemEnum.mk "Signal" [
    Variant.mk "Hangup" [] none, Variant.mk "Interrupt" [] none,
    Variant.mk "Quit" [] none, Variant.mk "Kill" [] none,
    Variant.mk "Other" [.path "u8"] none])
  [.lit (.int 1), .lit (.int 2), .lit (.int 3), .lit (.int 9)]
  [.path "u8"]
  ["Hangup", "Interrupt", "Quit", "Kill"]
  (some false) false "Other"

/-- examples/omit_discriminant.rs. -/
def digItem : ItemEnum := ItemEnum.mk "Digit" [
  Variant.mk "Thousandths" [] (some (.unaryNeg (.lit (.int 3)))),
  Variant.mk "Hundredths" [] none,
  Variant.mk "Tenths" [] none,
  Variant.mk "Unit" [] none,
  Variant.mk "Tens" [] none,
  Variant.mk "Hundreds" [] none,
  Variant.mk "Thousands" [] none]

/-- The resolved discriminants of digItem. -/
def digDiscs : List RExpr := [.unaryNeg (.lit (.int 3)), .lit (.int (-2)),
  .lit (.int (-1)), .lit (.int 0), .lit (.int 1), .lit (.int 2), .lit (.int 3)]

/-- examples/string.rs (a prefix of the HttpMethod enum). -/
def httpItem : ItemEnum := ItemEnum.mk "HttpMethod" [
  Variant.mk "Get" [] (some (.lit (.str "GET"))),
  Variant.mk "Head" [] (some (.lit (.str "HEAD"))),
  Variant.mk "Put" [] (some (.lit (.str "PUT")))]

def httpArgs : Args := Args.mk (.path "String") "Other"

/-- The macro's output on httpItem (checked against `other` below). -/
def httpGen : GenOutput := GenOutput.mk
  (ItemEnum.mk "HttpMethod" [
    Variant.mk "Get" [] none, Variant.mk "Head" [] none, Variant.mk "Put" [] none,
    Variant.mk "Other" [.path "String"] none])
  [.lit (.str "GET"), .lit (.str "HEAD"), .lit (.str "PUT")]
  [.path "String"]
  ["Get", "Head", "Put"]
  (some true) true "Other"

/-- examples/tuple.rs (a prefix of the Color enum). -/
def colorItem : ItemEnum := ItemEnum.mk "Color" [
  Variant.mk "Black" [] (some (.tuple [.lit (.int 0), .lit (.int 0), .lit (.int 0)])),
  Variant.mk "Blue" [] (some (.tuple [.lit (.int 0), .lit (.int 0), .lit (.int 255)])),
  Variant.mk "Magenta" [] (some (.tuple [.lit (.int 255), .lit (.int 0), .lit (.int 255)]))]

def colorArgs : Args := Args.mk (.tuple [.path "u8", .path "u8", .path "u8"]) "Other"

/-- The macro's output on colorItem (checked against `other` below). -/
def colorGen : GenOutput := GenOutput.mk
  (ItemEnum.mk "Color" [
    Variant.mk "Black" [] none, Variant.mk "Blue" [] none, Variant.mk "Magenta" [] none,
    Variant.mk "Other" [.path "u8", .path "u8", .path "u8"] none])
  [.tuple [.lit (.int 0), .lit (.int 0), .lit (.int 0)],
   .tuple [.lit (.int 0), .lit (.int 0), .lit (.int 255)],
   .tuple [.lit (.int 255), .lit (.int 0), .lit (.int 255)]]
  [.path "u8", .path "u8", .path "u8"]
  ["Black", "Blue", "Magenta"]
  (some false) false "Other"

/-- examples/custom_other_ident.rs. -/
def audioItem : ItemEnum := ItemEnum.mk "AudioChannels" [
  Variant.mk "Mono" [] (some (.lit (.int 1))),
  Variant.mk "Stereo" [] (some (.lit (.int 2)))]

def audioArgs : Args := Args.mk (.path "u8") "Surround"

/-- The macro's output on audioItem (checked against `other` below). -/
def audioGen : GenOutput := GenOutput.mk
  (ItemEnum.mk "AudioChannels" [
    Variant.mk "Mono" [] none, Variant.mk "Stereo" [] none,
    Variant.mk "Surround" [.path "u8"] none])
  [.lit (.int 1), .lit (.int 2)]
  [.path "u8"]
  ["Mono", "Stereo"]
  (some false) false "Surround"

/-- An enum in which two members share the resolved discriminant 1. -/
def dupItem : ItemEnum := ItemEnum.mk "Dup" [
  Variant.mk "A" [] (some (.lit (.int 1))),
  Variant.mk "B" [] (some (.lit (.int 1)))]

def dupArgs : Args := Args.mk (.path "u16") "Other"

/-- The macro's output on dupItem (checked against `other` below). -/
def dupGen : GenOutput := GenOutput.mk
  (ItemEnum.mk "Dup" [
    Variant.mk "A" [] none, Variant.mk "B" [] none,
    Variant.mk "Other" [.path "u16"] none])
  [.lit (.int 1), .lit (.int 1)]
  [.path "u16"]
  ["A", "B"]
  (some false) false "Other"

/-- An enum with a discriminant literal one past isize::MAX. -/
def overflowItem : ItemEnum := ItemEnum.mk "Overflow" [
  Variant.mk "A" [] (some (.lit (.int (2 ^ 63))))]

/-- The running-counter update the resolution loop performs per member: an
explicit discriminant that parses as an integer sets the counter to it,
everything else leaves the counter alone, and the counter is incremented
by one at the end of the member's iteration. -/
def counterNext (c : Int) (v : Variant) : Int :=
  wrapIsize
    ((match v.discriminant with
      | some e =>
        match parse_int_expr e with
        | .ok (some n) => n
        | _ => c
      | none => c) + 1)

/-- The counter value the resolution loop holds when it reaches member i,
starting the walk at counter value c. -/
def counterAt (c : Int) (vs : List Variant) (i : Nat) : Int :=
  (vs.take i).foldl counterNext c

/-! ### Helper lemmas -/

theorem wrapIsize_eq_self {n : Int} (h1 : isizeMin ≤ n) (h2 : n ≤ isizeMax) :
    wrapIsize n = n := by
  unfold isizeMin at h1
  unfold isizeMax at h2
  unfold wrapIsize
  have hpow : (2 : Int) ^ 64 = 2 ^ 63 * 2 := by norm_num
  have h3 : (0 : Int) ≤ n + 2 ^ 63 := by linarith
  have h4 : n + 2 ^ 63 < 2 ^ 64 := by rw [hpow]; linarith
  rw [Int.emod_eq_of_lt h3 h4]
  ring

theorem wrapIsize_mem (n : Int) : isizeMin ≤ wrapIsize n ∧ wrapIsize n ≤ isizeMax := by
  unfold wrapIsize isizeMin isizeMax
  have hpow : (2 : Int) ^ 64 = 2 ^ 63 * 2 := by norm_num
  have hne : (2 : Int) ^ 64 ≠ 0 := by norm_num
  have hpos : (0 : Int) < 2 ^ 64 := by norm_num
  have h1 := Int.emod_nonneg (n + 2 ^ 63) hne
  have h2 := Int.emod_lt_of_pos (n + 2 ^ 63) hpos
  constructor
  · linarith
  · linarith

theorem counterAt_zero (c : Int) (vs : List Variant) : counterAt c vs 0 = c := rfl

theorem counterAt_cons (c : Int) (v : Variant) (vs : List Variant) (i : Nat) :
    counterAt c (v :: vs) (i + 1) = counterAt (counterNext c v) vs i := rfl

theorem counterAt_mem (c : Int) (vs : List Variant) (i : Nat)
    (hc : isizeMin ≤ c ∧ c ≤ isizeMax) :
    isizeMin ≤ counterAt c vs i ∧ counterAt c vs i ≤ isizeMax := by
  induction vs generalizing c i with
  | nil =>
    simp only [counterAt, List.take_nil, List.foldl_nil]
    exact hc
  | cons v vs ih =>
    cases i with
    | zero => exact hc
    | succ i =>
      rw [counterAt_cons]
      exact ih (counterNext c v) i (wrapIsize_mem _)

theorem counterNext_explicit {c : Int} {v : Variant} {e : RExpr} {r : Option Int}
    (hd : v.discriminant = some e) (hp : parse_int_expr e = .ok r) :
    counterNext c v = wrapIsize ((match r with | some n => n | none => c) + 1) := by
  cases r with
  | some n =>
    unfold counterNext
    rw [hd]
    simp only [hp]
  | none =>
    unfold counterNext
    rw [hd]
    simp only [hp]

theorem counterNext_none {c : Int} {v : Variant} (hd : v.discriminant = none) :
    counterNext c v = wrapIsize (c + 1) := by
  unfold counterNext
  rw [hd]

/-- Inversion of a successful resolution step on a member with an explicit
discriminant. -/
theorem resolveFrom_cons_some {c : Int} {v : Variant} {vs : List Variant}
    {ds : List RExpr} {e : RExpr}
    (hd : v.discriminant = some e) (h : resolveFrom c (v :: vs) = .ok ds) :
    ∃ r ds', parse_int_expr e = .ok r ∧
      resolveFrom (counterNext c v) vs = .ok ds' ∧
      ds = e :: ds' := by
  cases hp : parse_int_expr e with
  | error msg =>
    simp only [resolveFrom, hd, hp] at h
    exact Except.noConfusion h
  | ok r =>
    cases r with
    | some n =>
      cases hr : resolveFrom (wrapIsize (n + 1)) vs with
      | error msg =>
        simp only [resolveFrom, hd, hp, hr] at h
        exact Except.noConfusion h
      | ok ds' =>
        simp only [resolveFrom, hd, hp, hr, Except.ok.injEq] at h
        refine ⟨some n, ds', rfl, ?_, h.symm⟩
        rw [counterNext_explicit hd hp]
        exact hr
    | none =>
      cases hr : resolveFrom (wrapIsize (c + 1)) vs with
      | error msg =>
        simp only [resolveFrom, hd, hp, hr] at h
        exact Except.noConfusion h
      | ok ds' =>
        simp only [resolveFrom, hd, hp, hr, Except.ok.injEq] at h
        refine ⟨none, ds', rfl, ?_, h.symm⟩
        rw [counterNext_explicit hd hp]
        exact hr

/-- Inversion of a successful resolution step on a member without a
discriminant. -/
theorem resolveFrom_cons_none {c : Int} {v : Variant} {vs : List Variant}
    {ds : List RExpr}
    (hd : v.discriminant = none) (h : resolveFrom c (v :: vs) = .ok ds) :
    ∃ ds', resolveFrom (counterNext c v) vs = .ok ds' ∧
      ds = RExpr.lit (.int c) :: ds' := by
  cases hr : resolveFrom (wrapIsize (c + 1)) vs with
  | error msg =>
    simp only [resolveFrom, hd, hr] at h
    exact Except.noConfusion h
  | ok ds' =>
    simp only [resolveFrom, hd, hr, Except.ok.injEq] at h
    refine ⟨ds', ?_, h.symm⟩
    rw [counterNext_none hd]
    exact hr

theorem resolveFrom_length : ∀ (vs : List Variant) (c : Int) (ds : List RExpr),
    resolveFrom c vs = .ok ds → ds.length = vs.length := by
  intro vs
  induction vs with
  | nil =>
    intro c ds h
    simp only [resolveFrom] at h
    cases h
    rfl
  | cons v vs ih =>
    intro c ds h
    cases hd : v.discriminant with
    | some e =>
      obtain ⟨r, ds', hp, hr, hds⟩ := resolveFrom_cons_some hd h
      subst hds
      simp [ih _ _ hr]
    | none =>
      obtain ⟨ds', hr, hds⟩ := resolveFrom_cons_none hd h
      subst hds
      simp [ih _ _ hr]

/-- An explicit discriminant is resolved to its expression verbatim. -/
theorem resolveFrom_explicit : ∀ (vs : List Variant) (c : Int) (ds : List RExpr),
    resolveFrom c vs = .ok ds →
    ∀ (i : Nat) (v : Variant) (e : RExpr),
      vs[i]? = some v → v.discriminant = some e → ds[i]? = some e := by
  intro vs
  induction vs with
  | nil => intro c ds h i v e hv he; simp at hv
  | cons u vs ih =>
    intro c ds h i v e hv he
    cases hd : u.discriminant with
    | some e' =>
      obtain ⟨r, ds', hp, hr, hds⟩ := resolveFrom_cons_some hd h
      subst hds
      cases i with
      | zero =>
        simp only [List.getElem?_cons_zero, Option.some.injEq] at hv
        subst hv
        rw [hd] at he
        cases he
        simp
      | succ i =>
        simp only [List.getElem?_cons_succ] at hv ⊢
        exact ih _ _ hr i v e hv he
    | none =>
      obtain ⟨ds', hr, hds⟩ := resolveFrom_cons_none hd h
      subst hds
      cases i with
      | zero =>
        simp only [List.getElem?_cons_zero, Option.some.injEq] at hv
        subst hv
        rw [hd] at he
        cases he
      | succ i =>
        simp only [List.getElem?_cons_succ] at hv ⊢
        exact ih _ _ hr i v e hv he

/-- A missing discriminant is resolved to the current counter value,
rendered as an integer literal. -/
theorem resolveFrom_inferred : ∀ (vs : List Variant) (c : Int) (ds : List RExpr),
    resolveFrom c vs = .ok ds →
    ∀ (i : Nat) (v : Variant),
      vs[i]? = some v → v.discriminant = none →
      ds[i]? = some (.lit (.int (counterAt c vs i))) := by
  intro vs
  induction vs with
  | nil => intro c ds h i v hv he; simp at hv
  | cons u vs ih =>
    intro c ds h i v hv he
    cases hd : u.discriminant with
    | some e' =>
      obtain ⟨r, ds', hp, hr, hds⟩ := resolveFrom_cons_some hd h
      subst hds
      cases i with
      | zero =>
        simp only [List.getElem?_cons_zero, Option.some.injEq] at hv
        subst hv
        rw [hd] at he
        cases he
      | succ i =>
        simp only [List.getElem?_cons_succ] at hv ⊢
        rw [counterAt_cons]
        exact ih _ _ hr i v hv he
    | none =>
      obtain ⟨ds', hr, hds⟩ := resolveFrom_cons_none hd h
      subst hds
      cases i with
      | zero =>
        simp only [List.getElem?_cons_zero, Option.some.injEq] at hv
        subst hv
        rw [counterAt_zero]
        simp
      | succ i =>
        simp only [List.getElem?_cons_succ] at hv ⊢
        rw [counterAt_cons]
        exact ih _ _ hr i v hv he

/-- If any member carries an explicit discriminant whose integer parse
fails, the resolution loop fails. -/
theorem resolveFrom_error : ∀ (vs : List Variant) (v : Variant) (e : RExpr) (msg : String),
    v ∈ vs → v.discriminant = some e → parse_int_expr e = .error msg →
    ∀ c, ∃ msg', resolveFrom c vs = .error msg' := by
  intro vs
  induction vs with
  | nil => intro v e msg hv; cases hv
  | cons u vs ih =>
    intro v e msg hv he hp c
    by_cases heq : u = v
    · subst heq
      refine ⟨msg, ?_⟩
      simp only [resolveFrom, he, hp]
    · have hmem : v ∈ vs := by
        rcases List.mem_cons.mp hv with h' | h'
        · exact absurd h'.symm heq
        · exact h'
      cases hd : u.discriminant with
      | some e' =>
        cases hp' : parse_int_expr e' with
        | error msg' =>
          refine ⟨msg', ?_⟩
          simp only [resolveFrom, hd, hp']
        | ok r =>
          cases r with
          | some n =>
            obtain ⟨msg', hmsg'⟩ := ih v e msg hmem he hp (wrapIsize (n + 1))
            refine ⟨msg', ?_⟩
            simp only [resolveFrom, hd, hp', hmsg']
          | none =>
            obtain ⟨msg', hmsg'⟩ := ih v e msg hmem he hp (wrapIsize (c + 1))
            refine ⟨msg', ?_⟩
            simp only [resolveFrom, hd, hp', hmsg']
      | none =>
        obtain ⟨msg', hmsg'⟩ := ih v e msg hmem he hp (wrapIsize (c + 1))
        refine ⟨msg', ?_⟩
        simp only [resolveFrom, hd, hmsg']

/-- find? returns the element at the first index where the predicate
holds. -/
theorem find?_of_first {α : Type} {p : α → Bool} : ∀ (l : List α) (i : Nat) (a : α),
    l[i]? = some a → p a = true →
    (∀ j, j < i → ∀ b, l[j]? = some b → p b = false) →
    l.find? p = some a := by
  intro l
  induction l with
  | nil => intro i a ha; simp at ha
  | cons x xs ih =>
    intro i a ha hp hfirst
    cases i with
    | zero =>
      simp only [List.getElem?_cons_zero, Option.some.injEq] at ha
      subst ha
      rw [List.find?_cons_of_pos _ hp]
    | succ i =>
      simp only [List.getElem?_cons_succ] at ha
      have hx : p x = false := hfirst 0 (Nat.succ_pos i) x (by simp)
      rw [List.find?_cons_of_neg _ (by simp [hx])]
      exact ih i a ha hp fun j hj b hb => hfirst (j + 1) (Nat.succ_lt_succ hj) b (by simpa using hb)

/-- Unpacking a successful run of the macro into its components. -/
theorem other_ok_elim {args : Args} {item : ItemEnum} {g : GenOutput}
    (h : other args item = .ok g) :
    resolveFrom 0 item.variants = .ok g.discriminants ∧
    g.item.ident = item.ident ∧
    g.item.variants =
      item.variants.map (fun v => Variant.mk v.name v.fields none) ++
        [Variant.mk args.other_ident (otherFieldsOf args.data_type) none] ∧
    g.other_fields = otherFieldsOf args.data_type ∧
    g.primary_variants =
      ((item.variants.map (fun v => Variant.mk v.name v.fields none) ++
          [Variant.mk args.other_ident (otherFieldsOf args.data_type) none]).map
        (fun v => v.name)).filter (fun n => n != args.other_ident) ∧
    g.data_type_match_as_str = g.discriminants.head?.map (fun d => d.isStrLit) ∧
    g.convert_to_string =
      (match g.discriminants.head? with
        | some d => d.isStrLit
        | none => false) ∧
    g.other_ident = args.other_ident := by
  cases hr : resolveFrom 0 item.variants with
  | error msg =>
    simp only [other, hr] at h
    exact Except.noConfusion h
  | ok ds =>
    simp only [other, hr, Except.ok.injEq] at h
    subst h
    exact ⟨rfl, rfl, rfl, rfl, rfl, rfl, rfl, rfl⟩

/-- Under the no-collision precondition, the filtered primary variant
names are exactly the original member names in order. -/
theorem primary_variants_eq {args : Args} {item : ItemEnum} {g : GenOutput}
    (h : other args item = .ok g)
    (hnc : ∀ v ∈ item.variants, v.name ≠ args.other_ident) :
    g.primary_variants = item.variants.map (fun v => v.name) := by
  obtain ⟨-, -, -, -, hp, -, -, -⟩ := other_ok_elim h
  rw [hp, List.map_append, List.filter_append, List.map_map]
  have hfe : ((fun (v : Variant) => v.name) ∘
      (fun (v : Variant) => Variant.mk v.name v.fields none)) =
      fun (v : Variant) => v.name := rfl
  rw [hfe]
  have h1 : (item.variants.map (fun v => v.name)).filter
      (fun n => n != args.other_ident) = item.variants.map (fun v => v.name) := by
    rw [List.filter_eq_self]
    intro a ha
    obtain ⟨v, hv, hva⟩ := List.mem_map.mp ha
    subst hva
    simpa using hnc v hv
  have h2 : (([Variant.mk args.other_ident (otherFieldsOf args.data_type) none]).map
      (fun v => v.name)).filter (fun n => n != args.other_ident) = [] := by
    simp
  rw [h1, h2, List.append_nil]

theorem counterAt_succ : ∀ (vs : List Variant) (c : Int) (i : Nat) (v : Variant),
    vs[i]? = some v → counterAt c vs (i + 1) = counterNext (counterAt c vs i) v := by
  intro vs
  induction vs with
  | nil => intro c i v hv; simp at hv
  | cons u vs ih =>
    intro c i v hv
    cases i with
    | zero =>
      simp only [List.getElem?_cons_zero, Option.some.injEq] at hv
      subst hv
      rfl
    | succ i =>
      simp only [List.getElem?_cons_succ] at hv
      rw [counterAt_cons, counterAt_cons]
      exact ih _ i v hv

theorem parse_int_expr_lit {m : Int} (h1 : isizeMin ≤ m) (h2 : m ≤ isizeMax) :
    parse_int_expr (.lit (.int m)) = .ok (some m) := by
  show (if isizeMin ≤ m ∧ m ≤ isizeMax then
      Except.ok (some (wrapIsize (m * 1))) else Except.error "literal out of range for isize") =
    Except.ok (some m)
  rw [if_pos ⟨h1, h2⟩, mul_one, wrapIsize_eq_self h1 h2]

theorem isizeMin_le_zero : isizeMin ≤ 0 ∧ (0 : Int) ≤ isizeMax := by
  unfold isizeMin isizeMax
  norm_num

/-- A successful integer parse always lands in the isize range. -/
theorem parse_int_expr_ok_mem {e : RExpr} {n : Int}
    (h : parse_int_expr e = .ok (some n)) : isizeMin ≤ n ∧ n ≤ isizeMax := by
  cases e with
  | lit l =>
    cases l with
    | int m =>
      simp only [parse_int_expr] at h
      split at h
      · simp only [Except.ok.injEq, Option.some.injEq] at h
        subst h
        exact wrapIsize_mem _
      · exact Except.noConfusion h
    | str s => simp [parse_int_expr] at h
    | otherLit => simp [parse_int_expr] at h
  | unaryNeg inner =>
    cases inner with
    | lit l =>
      cases l with
      | int m =>
        simp only [parse_int_expr] at h
        split at h
        · simp only [Except.ok.injEq, Option.some.injEq] at h
          subst h
          exact wrapIsize_mem _
        · exact Except.noConfusion h
      | str s => simp [parse_int_expr] at h
      | otherLit => simp [parse_int_expr] at h
    | unaryNeg e => simp [parse_int_expr] at h
    | tuple es => simp [parse_int_expr] at h
    | otherExpr => simp [parse_int_expr] at h
  | tuple es => simp [parse_int_expr] at h
  | otherExpr => simp [parse_int_expr] at h

theorem RExpr.isStrLit_eq_true_iff (d : RExpr) :
    d.isStrLit = true ↔ ∃ s, d = .lit (.str s) := by
  cases d with
  | lit l =>
    cases l with
    | int n => simp [RExpr.isStrLit]
    | str s => simp [RExpr.isStrLit]
    | otherLit => simp [RExpr.isStrLit]
  | unaryNeg e => simp [RExpr.isStrLit]
  | tuple es => simp [RExpr.isStrLit]
  | otherExpr => simp [RExpr.isStrLit]

theorem Value.isStr_eq_true_iff (v : Value) :
    v.isStr = true ↔ ∃ s, v = .str s := by
  cases v with
  | int n => simp [Value.isStr]
  | str s => simp [Value.isStr]
  | tuple vs => simp [Value.isStr]

theorem destructure_eq_some {k : Nat} {v : Value} {fs : List Value}
    (h : destructure k v = some fs) :
    (k = 1 ∧ fs = [v]) ∨
      (k ≠ 1 ∧ ∃ vs, v = Value.tuple vs ∧ fs = vs ∧ vs.length = k) := by
  by_cases hk : k = 1
  · have h2 : destructure k v = some [v] := by
      unfold destructure
      rw [if_pos hk]
    rw [h] at h2
    left
    refine ⟨hk, ?_⟩
    simpa using h2
  · right
    cases v with
    | int n =>
      exfalso
      have h2 : destructure k (Value.int n) = none := by
        unfold destructure
        rw [if_neg hk]
      rw [h] at h2
      exact Option.noConfusion h2
    | str s =>
      exfalso
      have h2 : destructure k (Value.str s) = none := by
        unfold destructure
        rw [if_neg hk]
      rw [h] at h2
      exact Option.noConfusion h2
    | tuple vs =>
      by_cases hlen : vs.length = k
      · have h2 : destructure k (Value.tuple vs) = some vs := by
          unfold destructure
          rw [if_neg hk]
          show (if vs.length = k then some vs else none) = some vs
          rw [if_pos hlen]
        rw [h] at h2
        have : fs = vs := by simpa using h2
        exact ⟨hk, vs, rfl, this, hlen⟩
      · exfalso
        have h2 : destructure k (Value.tuple vs) = none := by
          unfold destructure
          rw [if_neg hk]
          show (if vs.length = k then some vs else none) = none
          rw [if_neg hlen]
        rw [h] at h2
        exact Option.noConfusion h2

theorem mkTuple_of_length_ne_one {vs : List Value} (h : vs.length ≠ 1) :
    mkTuple vs = .tuple vs := by
  cases vs with
  | nil => rfl
  | cons x t =>
    cases t with
    | nil => simp at h
    | cons y t2 => rfl

/-- The Value-to-Enum dispatch selects the member of the first arm whose
discriminant pattern matches the incoming value. -/
theorem value_to_enum_member_at (g : GenOutput) (i : Nat) (d : RExpr)
    (v : Value) (name : String)
    (hd : g.discriminants[i]? = some d)
    (hp : g.primary_variants[i]? = some name)
    (he : evalExpr d = some v)
    (hfirst : ∀ j, j < i → ∀ d', g.discriminants[j]? = some d' → evalExpr d' ≠ some v) :
    value_to_enum g v = some (.member name) := by
  have hzip : (g.discriminants.zip g.primary_variants)[i]? = some (d, name) := by
    rw [List.getElem?_zip_eq_some]
    exact ⟨hd, hp⟩
  have hfind : (g.discriminants.zip g.primary_variants).find?
      (fun a => decide (evalExpr a.1 = some v)) = some (d, name) := by
    apply find?_of_first _ i _ hzip
    · simp [he]
    · intro j hj b hb
      rw [List.getElem?_zip_eq_some] at hb
      simpa using hfirst j hj b.1 hb.1
  unfold value_to_enum
  rw [hfind]

/-- The Enum-to-Value dispatch selects the arm of the first primary
variant with the matching name and returns its (possibly stringified)
discriminant value. -/
theorem enum_to_value_member_at (g : GenOutput) (i : Nat) (d : RExpr) (name : String)
    (hp : g.primary_variants[i]? = some name)
    (hd : g.discriminants[i]? = some d)
    (hfirst : ∀ j, j < i → ∀ n', g.primary_variants[j]? = some n' → n' ≠ name) :
    enum_to_value g (.member name) =
      (evalExpr d).map (applyConvert g.convert_to_string) := by
  have hzip : (g.primary_variants.zip g.discriminants)[i]? = some (name, d) := by
    rw [List.getElem?_zip_eq_some]
    exact ⟨hp, hd⟩
  have hfind : (g.primary_variants.zip g.discriminants).find?
      (fun a => a.1 == name) = some (name, d) := by
    apply find?_of_first _ i _ hzip
    · simp
    · intro j hj b hb
      rw [List.getElem?_zip_eq_some] at hb
      simpa using hfirst j hj b.1 hb.1
  simp only [enum_to_value]
  rw [hfind]

/-- When no discriminant pattern matches the incoming value, the
Value-to-Enum dispatch falls through to the final fallback arm. -/
theorem value_to_enum_fallback (g : GenOutput) (v : Value)
    (hne : ∀ d ∈ g.discriminants, evalExpr d ≠ some v) :
    value_to_enum g v = (destructure g.other_fields.length v).map
      (fun fs => .fallback (fs.map (applyConvert g.convert_to_string))) := by
  have hfind : (g.discriminants.zip g.primary_variants).find?
      (fun a => decide (evalExpr a.1 = some v)) = none := by
    rw [List.find?_eq_none]
    intro a ha
    have hmem := (List.of_mem_zip ha).1
    simp [hne a.1 hmem]
  unfold value_to_enum
  rw [hfind]

/-! ### The claims -/

/-- C3: Discriminant resolution walks the members once, left to right, with
a signed counter initialised to 0.  A member with an explicit discriminant
resolves to that expression verbatim; a member with no explicit
discriminant resolves to the current counter value rendered as an integer
literal (counterAt packages the counter evolution: an explicit
integer-literal discriminant, possibly unary-negated, sets the counter to
its value, any other explicit expression leaves it untouched, and the
counter is incremented by 1 after every member); consequently a member
with no explicit discriminant following a member whose resolved
discriminant is an integer with value n resolves to the literal n + 1. -/
theorem claim_c3_resolution (vs : List Variant) (ds : List RExpr)
    (h : resolveFrom 0 vs = .ok ds) :
    ds.length = vs.length ∧
    (∀ (i : Nat) (v : Variant) (e : RExpr),
      vs[i]? = some v → v.discriminant = some e → ds[i]? = some e) ∧
    (∀ (i : Nat) (v : Variant), vs[i]? = some v → v.discriminant = none →
      ds[i]? = some (RExpr.lit (.int (counterAt 0 vs i)))) ∧
    (∀ (i : Nat) (d : RExpr) (n : Int) (v' : Variant),
      ds[i]? = some d → parse_int_expr d = .ok (some n) →
      n < isizeMax → vs[i + 1]? = some v' → v'.discriminant = none →
      ds[i + 1]? = some (RExpr.lit (.int (n + 1)))) := by
  have hlen := resolveFrom_length vs 0 ds h
  refine ⟨hlen, resolveFrom_explicit vs 0 ds h, resolveFrom_inferred vs 0 ds h, ?_⟩
  intro i d n v' hd hp hn hv' he'
  have hi : i < vs.length := by
    have := (List.getElem?_eq_some.mp hd).1
    omega
  obtain ⟨vi, hvi⟩ : ∃ vi, vs[i]? = some vi := ⟨vs[i], List.getElem?_eq_getElem hi⟩
  have hrange : isizeMin ≤ n ∧ n ≤ isizeMax := parse_int_expr_ok_mem hp
  have hsucc : counterAt 0 vs (i + 1) = counterNext (counterAt 0 vs i) vi :=
    counterAt_succ vs 0 i vi hvi
  have hccons := resolveFrom_inferred vs 0 ds h (i + 1) v' hv' he'
  have hwrap : wrapIsize (n + 1) = n + 1 := by
    apply wrapIsize_eq_self
    · unfold isizeMin at hrange ⊢
      linarith [hrange.1]
    · linarith [hn]
  cases hdi : vi.discriminant with
  | some e =>
    have hde := resolveFrom_explicit vs 0 ds h i vi e hvi hdi
    rw [hd] at hde
    cases hde
    have hnext : counterNext (counterAt 0 vs i) vi = wrapIsize (n + 1) := by
      rw [counterNext_explicit hdi hp]
    rw [hccons, hsucc, hnext, hwrap]
  | none =>
    have hdc := resolveFrom_inferred vs 0 ds h i vi hvi hdi
    rw [hd] at hdc
    have hdeq : d = RExpr.lit (.int (counterAt 0 vs i)) := by
      simpa using hdc
    have hcrange := counterAt_mem 0 vs i isizeMin_le_zero
    have hplit : parse_int_expr d = .ok (some (counterAt 0 vs i)) := by
      rw [hdeq]
      exact parse_int_expr_lit hcrange.1 hcrange.2
    rw [hp] at hplit
    have hneq : n = counterAt 0 vs i := by
      simpa using hplit
    have hnext : counterNext (counterAt 0 vs i) vi = wrapIsize (n + 1) := by
      rw [counterNext_none hdi, hneq]
    rw [hccons, hsucc, hnext, hwrap]

/-- Witness for C3 on the omit_discriminant example: the member after the
explicit -3 resolves to -2, and the member after the inferred 1 resolves
to 2. -/
theorem claim_c3_resolution_witness :
    resolveFrom 0 digItem.variants = .ok digDiscs ∧
    digDiscs[1]? = some (RExpr.lit (.int (-2))) ∧
    digDiscs[5]? = some (RExpr.lit (.int 2)) := by
  have h := claim_c3_resolution digItem.variants digDiscs (by decide)
  refine ⟨by decide, ?_, ?_⟩
  · have h1 := h.2.2.1 1 (Variant.mk "Hundredths" [] none) (by decide) rfl
    have hc : counterAt 0 digItem.variants 1 = -2 := by decide
    rw [hc] at h1
    exact h1
  · exact h.2.2.2 4 (RExpr.lit (.int 1)) 1 (Variant.mk "Hundreds" [] none)
      (by decide) (by decide) (by decide) (by decide) rfl

/-- C8: a member whose explicit discriminant is an integer literal that
fails to parse into isize makes the whole transformation abort: the
emitted stream is the reported compile error alone, with no rewritten
enum and no conversions (the error result carries no GenOutput). -/
theorem claim_c8_parse_error_aborts (args : Args) (item : ItemEnum)
    (v : Variant) (e : RExpr) (msg : String)
    (hv : v ∈ item.variants) (he : v.discriminant = some e)
    (hp : parse_int_expr e = .error msg) :
    ∃ msg', other args item = .error msg' := by
  obtain ⟨msg', hmsg'⟩ := resolveFrom_error item.variants v e msg hv he hp 0
  refine ⟨msg', ?_⟩
  simp only [other, hmsg']

/-- Witness for C8: the literal 2^63 overflows isize and aborts the
transformation. -/
theorem claim_c8_parse_error_aborts_witness :
    ∃ msg', other sigArgs overflowItem = .error msg' :=
  claim_c8_parse_error_aborts sigArgs overflowItem
    (Variant.mk "A" [] (some (.lit (.int (2 ^ 63))))) (.lit (.int (2 ^ 63)))
    "literal out of range for isize" (by decide) rfl (by decide)

/-- C10: the unary-negated literal -9223372036854775808 fails to parse
with a compile error even though its mathematical value is exactly
isize::MIN and therefore fits the platform signed-word type: the
magnitude 9223372036854775808 is parsed into isize before the negation is
applied, and it exceeds isize::MAX. -/
theorem claim_c10_min_negation_overflow :
    parse_int_expr (.unaryNeg (.lit (.int (2 ^ 63)))) =
      .error "literal out of range for isize" ∧
    isizeMin ≤ -(2 ^ 63 : Int) ∧ -(2 ^ 63 : Int) ≤ isizeMax ∧
    isizeMax < (2 ^ 63 : Int) :=
  ⟨by decide, by decide, by decide, by decide⟩

/-- C6: the emitted enum keeps the input's name, keeps the original
members in order with their discriminant annotations removed, and has
exactly one new member appended at the end, named by the fallback
identifier, whose payload is one positional field per tuple element when
the value type is a tuple and a single field of the value type
otherwise. -/
theorem claim_c6_output_shape (args : Args) (item : ItemEnum) (g : GenOutput)
    (h : other args item = .ok g) :
    g.item.ident = item.ident ∧
    g.item.variants =
      item.variants.map (fun v => Variant.mk v.name v.fields none) ++
        [Variant.mk args.other_ident g.other_fields none] ∧
    g.item.variants.length = item.variants.length + 1 ∧
    (∀ es, args.data_type = RType.tuple es → g.other_fields = es) ∧
    ((∀ es, args.data_type ≠ RType.tuple es) → g.other_fields = [args.data_type]) := by
  obtain ⟨-, hid, hvars, hof, -, -, -, -⟩ := other_ok_elim h
  refine ⟨hid, by rw [hvars, hof], by rw [hvars]; simp, ?_, ?_⟩
  · intro es hdt
    rw [hof, hdt]
    rfl
  · intro hnt
    cases hdt : args.data_type with
    | tuple es => exact absurd hdt (hnt es)
    | path nm =>
      rw [hof, hdt]
      rfl

/-- Witness for C6 on the custom_other_ident example: the Surround member
with one u8 field is appended after Mono and Stereo. -/
theorem claim_c6_output_shape_witness :
    audioGen.item.ident = audioItem.ident ∧
    audioGen.item.variants =
      audioItem.variants.map (fun v => Variant.mk v.name v.fields none) ++
        [Variant.mk audioArgs.other_ident audioGen.other_fields none] ∧
    audioGen.item.variants.length = audioItem.variants.length + 1 := by
  have h := claim_c6_output_shape audioArgs audioItem audioGen (by decide)
  exact ⟨h.1, h.2.1, h.2.2.1⟩

/-- C9: when no original member's name equals the fallback identifier, the
filtered primary-variant list is exactly the original member names in
declaration order, both conversions therefore contain one arm per original
member, and the i-th arm of the quote! zip pairs the i-th resolved
discriminant with the i-th member. -/
theorem claim_c9_arm_pairing (args : Args) (item : ItemEnum) (g : GenOutput)
    (h : other args item = .ok g)
    (hnc : ∀ v ∈ item.variants, v.name ≠ args.other_ident) :
    g.primary_variants = item.variants.map (fun v => v.name) ∧
    g.discriminants.length = item.variants.length ∧
    (g.discriminants.zip g.primary_variants).length = item.variants.length ∧
    (∀ (i : Nat) (v : Variant) (d : RExpr),
      item.variants[i]? = some v → g.discriminants[i]? = some d →
      (g.discriminants.zip g.primary_variants)[i]? = some (d, v.name)) := by
  have hprim := primary_variants_eq h hnc
  obtain ⟨hres, -, -, -, -, -, -, -⟩ := other_ok_elim h
  have hlen := resolveFrom_length item.variants 0 g.discriminants hres
  refine ⟨hprim, hlen, ?_, ?_⟩
  · rw [List.length_zip, hprim, hlen, List.length_map]
    simp
  · intro i v d hv hd
    rw [List.getElem?_zip_eq_some]
    refine ⟨hd, ?_⟩
    rw [hprim, List.getElem?_map, hv]
    rfl

/-- Witness for C9 on the simple example: the second arm pairs
discriminant 2 with member Interrupt. -/
theorem claim_c9_arm_pairing_witness :
    sigGen.primary_variants = sigItem.variants.map (fun v => v.name) ∧
    (sigGen.discriminants.zip sigGen.primary_variants)[1]? =
      some (.lit (.int 2), "Interrupt") := by
  have h := claim_c9_arm_pairing sigArgs sigItem sigGen (by decide) (by decide)
  refine ⟨h.1, ?_⟩
  exact h.2.2.2 1 (Variant.mk "Interrupt" [] (some (.lit (.int 2)))) (.lit (.int 2))
    (by decide) (by decide)

/-- C4: the textual handling of both generated conversions is decided
solely by the first member's resolved discriminant: the Enum-to-Value
stringification flag and the Value-to-Enum borrowed-text-view flag both
equal exactly the first resolved discriminant's string-literal test, and
the conversion applied to arm results and to the fallback's captured
fields stringifies when that flag is set and is the identity otherwise. -/
theorem claim_c4_textual_decision (args : Args) (item : ItemEnum) (g : GenOutput)
    (h : other args item = .ok g) (hne : item.variants ≠ []) :
    ∃ d, g.discriminants.head? = some d ∧
      g.convert_to_string = d.isStrLit ∧
      g.data_type_match_as_str = some d.isStrLit ∧
      (∀ w, applyConvert g.convert_to_string w =
        if d.isStrLit then Value.str (valueToString w) else w) := by
  obtain ⟨hres, -, -, -, -, hdtm, hconv, -⟩ := other_ok_elim h
  have hlen := resolveFrom_length item.variants 0 g.discriminants hres
  have hnil : g.discriminants ≠ [] := by
    intro hcon
    rw [hcon] at hlen
    exact hne (List.eq_nil_of_length_eq_zero hlen.symm)
  obtain ⟨d, hd⟩ : ∃ d, g.discriminants.head? = some d := by
    cases hds : g.discriminants with
    | nil => exact absurd hds hnil
    | cons a t => exact ⟨a, rfl⟩
  refine ⟨d, hd, ?_, ?_, ?_⟩
  · rw [hconv, hd]
  · rw [hdtm, hd]
    rfl
  · intro w
    rw [hconv, hd]
    rfl

/-- Witness for C4 on the string example: the first discriminant "GET" is
a string literal, so both flags are set. -/
theorem claim_c4_textual_decision_witness :
    ∃ d, httpGen.discriminants.head? = some d ∧
      httpGen.convert_to_string = d.isStrLit ∧
      httpGen.data_type_match_as_str = some d.isStrLit ∧
      (∀ w, applyConvert httpGen.convert_to_string w =
        if d.isStrLit then Value.str (valueToString w) else w) :=
  claim_c4_textual_decision httpArgs httpItem httpGen (by decide) (by decide)

/-- C7 counterexample: with a comma followed by a token that fails to
parse as a bare identifier, Args::parse itself returns the default Other
and leaves the token unconsumed, but attribute parsing as a whole then
fails with an unexpected-token error, so the transformation does not
proceed. -/
theorem claim_c7_counterexample :
    Args.parse (.path "u16") [.comma, .otherTok] =
      (Args.mk (.path "u16") "Other", [ArgToken.otherTok]) ∧
    parseArgsInput (.path "u16") [.comma, .otherTok] = .error "unexpected token" :=
  ⟨rfl, rfl⟩

/-- C7 amended: whenever the tokens after the value type are not a comma
followed by a bare identifier, Args::parse yields the default fallback
name Other; the transformation proceeds with that default exactly when
the failed identifier parse leaves no tokens unconsumed (the second
argument absent, or a bare trailing comma). -/
theorem claim_c7_default_other (dt : RType) (toks : List ArgToken)
    (h : ∀ s rest, toks ≠ ArgToken.comma :: ArgToken.ident s :: rest) :
    (Args.parse dt toks).1.other_ident = "Other" ∧
    ((Args.parse dt toks).2 = [] → parseArgsInput dt toks = .ok (Args.mk dt "Other")) := by
  cases toks with
  | nil => exact ⟨rfl, fun _ => rfl⟩
  | cons t rest =>
    cases t with
    | comma =>
      cases rest with
      | nil => exact ⟨rfl, fun _ => rfl⟩
      | cons t2 rest2 =>
        cases t2 with
        | comma =>
          refine ⟨rfl, ?_⟩
          intro h2
          exact List.noConfusion h2
        | ident s => exact absurd rfl (h s rest2)
        | otherTok =>
          refine ⟨rfl, ?_⟩
          intro h2
          exact List.noConfusion h2
    | ident s =>
      refine ⟨rfl, ?_⟩
      intro h2
      exact List.noConfusion h2
    | otherTok =>
      refine ⟨rfl, ?_⟩
      intro h2
      exact List.noConfusion h2

/-- Witness for the amended C7: a bare trailing comma defaults to Other
and the transformation proceeds. -/
theorem claim_c7_default_other_witness :
    (Args.parse (.path "u16") [ArgToken.comma]).1.other_ident = "Other" ∧
    ((Args.parse (.path "u16") [ArgToken.comma]).2 = [] →
      parseArgsInput (.path "u16") [ArgToken.comma] = .ok (Args.mk (.path "u16") "Other")) :=
  claim_c7_default_other (.path "u16") [ArgToken.comma]
    (by intro s rest hcon; simp at hcon)

/-- C1 counterexample: in an enum whose members A and B both carry the
discriminant 1, member B has resolved discriminant 1, yet the generated
Value-to-Enum conversion maps 1 to member A, not to B, so the round trip
fails for B as the claim is stated over every input enum. -/
theorem claim_c1_counterexample :
    (other dupArgs dupItem).map
        (fun g => (g.discriminants[1]?, value_to_enum g (.int 1))) =
      .ok (some (.lit (.int 1)), some (.member "A")) ∧
    dupItem.variants[1]? = some (Variant.mk "B" [] (some (.lit (.int 1)))) ∧
    evalExpr (.lit (.int 1)) = some (.int 1) ∧
    EnumValue.member "A" ≠ EnumValue.member "B" :=
  ⟨by decide, by decide, by decide, by decide⟩

/-- C1 amended: for a well-formed input enum (unique member names, none
equal to the fallback identifier, and, when the conversion is textual,
string-literal discriminants) whose resolved discriminants denote
pairwise distinct values, every original member round-trips: the
Value-to-Enum conversion maps the member's resolved discriminant value to
that member, and the Enum-to-Value conversion maps the member back to
that value. -/
theorem claim_c1_roundtrip (args : Args) (item : ItemEnum) (g : GenOutput)
    (i : Nat) (mv : Variant) (d : RExpr) (dv : Value)
    (h : other args item = .ok g)
    (hnames : (item.variants.map (fun v => v.name)).Nodup)
    (hnc : ∀ v ∈ item.variants, v.name ≠ args.other_ident)
    (hm : item.variants[i]? = some mv)
    (hd : g.discriminants[i]? = some d)
    (he : evalExpr d = some dv)
    (hnodup : (g.discriminants.map evalExpr).Nodup)
    (htx : g.convert_to_string = true → d.isStrLit = true) :
    value_to_enum g dv = some (.member mv.name) ∧
    enum_to_value g (.member mv.name) = some dv := by
  have hprim := primary_variants_eq h hnc
  have hp : g.primary_variants[i]? = some mv.name := by
    rw [hprim, List.getElem?_map, hm]
    rfl
  have hconv : applyConvert g.convert_to_string dv = dv := by
    cases hcv : g.convert_to_string with
    | false => rfl
    | true =>
      obtain ⟨s, hs⟩ := (RExpr.isStrLit_eq_true_iff d).mp (htx hcv)
      subst hs
      have hdv : dv = .str s := by
        simpa [evalExpr] using he.symm
      subst hdv
      rfl
  constructor
  · apply value_to_enum_member_at g i d dv mv.name hd hp he
    intro j hj d' hd' hcontra
    have hji : j = i := by
      have hj' : j < g.discriminants.length := (List.getElem?_eq_some.mp hd').1
      have hmj : (g.discriminants.map evalExpr)[j]? = some (some dv) := by
        rw [List.getElem?_map, hd']
        simp [hcontra]
      have hmi : (g.discriminants.map evalExpr)[i]? = some (some dv) := by
        rw [List.getElem?_map, hd]
        simp [he]
      exact List.getElem?_inj (by simpa using hj') hnodup (by rw [hmj, hmi])
    omega
  · rw [enum_to_value_member_at g i d mv.name hp hd ?_, he]
    · simp [hconv]
    · intro j hj n' hn' hcontra
      subst hcontra
      have hji : j = i := by
        have hj' : j < g.primary_variants.length := (List.getElem?_eq_some.mp hn').1
        apply List.getElem?_inj hj' (by rw [hprim]; exact hnames)
        rw [hn', hp]
      omega

/-- Witness for the amended C1 on the simple example: member Interrupt
with discriminant 2 round-trips. -/
theorem claim_c1_roundtrip_witness :
    value_to_enum sigGen (.int 2) = some (.member "Interrupt") ∧
    enum_to_value sigGen (.member "Interrupt") = some (.int 2) :=
  claim_c1_roundtrip sigArgs sigItem sigGen 1
    (Variant.mk "Interrupt" [] (some (.lit (.int 2)))) (.lit (.int 2)) (.int 2)
    (by decide) (by decide) (by decide) (by decide) (by decide) (by decide)
    (by decide) (by decide)

/-- C2: a value of the value type that no resolved discriminant denotes is
mapped by the Value-to-Enum conversion to the fallback member carrying the
value's payload, destructured into one field per tuple component when the
value type is a tuple of arity other than one and bound whole as a single
field otherwise; the Enum-to-Value conversion maps that fallback member
back to the value exactly, and the dispatch is total on such values
because the fallback arm is the final catch-all case. -/
theorem claim_c2_fallback_total (args : Args) (item : ItemEnum) (g : GenOutput)
    (v : Value) (fs : List Value)
    (h : other args item = .ok g)
    (hne : ∀ d ∈ g.discriminants, evalExpr d ≠ some v)
    (hdes : destructure g.other_fields.length v = some fs)
    (htx : g.convert_to_string = true → v.isStr = true) :
    value_to_enum g v = some (.fallback fs) ∧
    enum_to_value g (.fallback fs) = some v ∧
    (value_to_enum g v).isSome = true ∧
    (∀ es, args.data_type = RType.tuple es → es.length ≠ 1 →
      ∃ vs, v = .tuple vs ∧ fs = vs ∧ vs.length = es.length) ∧
    ((∀ es, args.data_type ≠ RType.tuple es) → fs = [v]) := by
  obtain ⟨-, -, -, hof, -, -, -, -⟩ := other_ok_elim h
  have hmap : fs.map (applyConvert g.convert_to_string) = fs := by
    cases hcv : g.convert_to_string with
    | false =>
      have hfun : applyConvert false = id := funext fun x => rfl
      rw [hfun, List.map_id]
    | true =>
      obtain ⟨s, hs⟩ := (Value.isStr_eq_true_iff v).mp (htx hcv)
      subst hs
      rcases destructure_eq_some hdes with ⟨hk, hfs⟩ | ⟨hk, vs, hv, -, -⟩
      · subst hfs
        rfl
      · exact absurd hv (by simp)
  have hv2e : value_to_enum g v = some (.fallback fs) := by
    rw [value_to_enum_fallback g v hne, hdes]
    simp [hmap]
  refine ⟨hv2e, ?_, by rw [hv2e]; rfl, ?_, ?_⟩
  · rcases destructure_eq_some hdes with ⟨hk, hfs⟩ | ⟨hk, vs, hv, hfs, hlen⟩
    · subst hfs
      simp [enum_to_value, mkTuple]
    · rw [hfs, hv]
      have hmk : mkTuple vs = .tuple vs :=
        mkTuple_of_length_ne_one (by rw [hlen]; exact hk)
      simp [enum_to_value, hmk]
  · intro es hdt hlen1
    rcases destructure_eq_some hdes with ⟨hk, hfs⟩ | ⟨hk, vs, hv, hfs, hlen⟩
    · exfalso
      rw [hof, hdt] at hk
      exact hlen1 (by simpa [otherFieldsOf] using hk)
    · refine ⟨vs, hv, hfs, ?_⟩
      rw [hof, hdt] at hlen
      simpa [otherFieldsOf] using hlen
  · intro hnt
    rcases destructure_eq_some hdes with ⟨hk, hfs⟩ | ⟨hk, vs, hv, hfs, hlen⟩
    · exact hfs
    · exfalso
      cases hdt : args.data_type with
      | tuple es => exact hnt es hdt
      | path nm =>
        rw [hof, hdt] at hk
        exact hk (by simp [otherFieldsOf])

/-- Witness for C2 on the tuple example: (255, 0, 127) matches no fixed
RGB discriminant and round-trips through the fallback member with three
fields. -/
theorem claim_c2_fallback_total_witness :
    value_to_enum colorGen (.tuple [.int 255, .int 0, .int 127]) =
      some (.fallback [.int 255, .int 0, .int 127]) ∧
    enum_to_value colorGen (.fallback [.int 255, .int 0, .int 127]) =
      some (.tuple [.int 255, .int 0, .int 127]) := by
  have h := claim_c2_fallback_total colorArgs colorItem colorGen
    (.tuple [.int 255, .int 0, .int 127]) [.int 255, .int 0, .int 127]
    (by decide) (by decide) (by decide) (by decide)
  exact ⟨h.1, h.2.1⟩

/-- C5: when two members share the same resolved discriminant value, the
transformer still succeeds (the hypothesis of a successful run is
satisfiable with duplicates, as the witness shows; no uniqueness
validation exists), and the Value-to-Enum conversion applied to the
shared value yields the member listed first in declaration order. -/
theorem claim_c5_first_match_wins (args : Args) (item : ItemEnum) (g : GenOutput)
    (i j : Nat) (vi vj : Variant) (di dj : RExpr) (v : Value)
    (h : other args item = .ok g)
    (hnc : ∀ w ∈ item.variants, w.name ≠ args.other_ident)
    (hij : i < j)
    (hvi : item.variants[i]? = some vi) (hvj : item.variants[j]? = some vj)
    (hdi : g.discriminants[i]? = some di) (hdj : g.discriminants[j]? = some dj)
    (hei : evalExpr di = some v) (hej : evalExpr dj = some v)
    (hfirst : ∀ d ∈ g.discriminants.take i, evalExpr d ≠ some v) :
    value_to_enum g v = some (.member vi.name) := by
  have hprim := primary_variants_eq h hnc
  have hp : g.primary_variants[i]? = some vi.name := by
    rw [hprim, List.getElem?_map, hvi]
    rfl
  apply value_to_enum_member_at g i di v vi.name hdi hp hei
  intro k hk d' hd'
  apply hfirst
  have htake : (g.discriminants.take i)[k]? = some d' := by
    rw [List.getElem?_take]
    simp [hk, hd']
  exact List.getElem?_mem htake

/-- Witness for C5: with members A = 1 and B = 1 the transformer succeeds
and Value-to-Enum maps 1 to A, the first of the two. -/
theorem claim_c5_first_match_wins_witness :
    other dupArgs dupItem = .ok dupGen ∧
    value_to_enum dupGen (.int 1) = some (.member "A") := by
  refine ⟨by decide, ?_⟩
  exact claim_c5_first_match_wins dupArgs dupItem dupGen 0 1
    (Variant.mk "A" [] (some (.lit (.int 1)))) (Variant.mk "B" [] (some (.lit (.int 1))))
    (.lit (.int 1)) (.lit (.int 1)) (.int 1)
    (by decide) (by decide) (by decide) (by decide) (by decide) (by decide)
    (by decide) (by decide) (by decide) (by decide)

end EnumOther
